import Mathlib

/-!
Verification development for the Eureka pipeline sources.

Part 1 embeds `src/eureka/S3_data_reduction/niriss_extraction.py`
(`optimal_extraction` and its convergence loop).  Machine floats are
modelled by `ℚ`; `np.nansum` on finite data is a plain sum.  The source
line `V = spectrum_var[i] + np.abs(sky_bkg[i]+(P*spectrum[i]))/Q` uses
the name `Q` (the detector gain) which is bound nowhere in the module:
the embedding carries it as the explicit field `gain`, and the list
`niriss_extraction_module_bindings` records the module's actual
top-level bindings so that the unboundness of `Q` is itself a theorem.

Part 2 embeds the light-curve model layer
(`PyMC3Models.py`, `StepModel.py`).
-/

namespace Eureka

namespace NirissExtraction

/-- A 2-D detector image (spatial rows `ny` by dispersion columns `nx`). -/
abbrev Mat (ny nx : Nat) := Fin ny → Fin nx → ℚ

/-- The cosmic-ray mask `M`; `true` is a good pixel (`1.0` in the source). -/
abbrev Mask (ny nx : Nat) := Fin ny → Fin nx → Bool

/-- Inputs of `optimal_extraction` after the quadrant slice at lines
233-251 (the slice and `block_extra` patch only choose the sub-image the
loop runs on).  `gaussfit`/`moffatfit` stand for the scipy/cython
least-squares profile fits `profile_niriss_gaussian` /
`profile_niriss_moffat` (first returned order): their numeric content
lives in `niriss_cython`, outside this repository's sources, so they are
arbitrary functions of the masked median image and the trace positions.
`gain` models the free name `Q` of source line 299 (see above). -/
structure ExtractionInput (T ny nx : Nat) where
  data : Fin T → Mat ny nx
  spectrum : Fin T → Fin nx → ℚ
  spectrum_var : Fin T → Fin nx → ℚ
  sky_bkg : Fin T → Mat ny nx
  pos1 : Option (List ℚ)
  pos2 : Option (List ℚ)
  sigma : ℚ
  cr_mask : Option (Fin T → Fin ny → Fin nx → Bool)
  /-- The strategy name.  The source lowercases it at each comparison
  (`proftype.lower() == ...`), so the embedding takes the name already
  lowercased. -/
  proftype : String
  gain : ℚ
  gaussfit : Mat ny nx → List ℚ → List ℚ → Mat ny nx
  moffatfit : Mat ny nx → List ℚ → List ℚ → Mat ny nx

/-- `np.nanmedian` of a finite list (sort, middle element, or mean of the
two middle elements for even length). -/
def npmedian (l : List ℚ) : ℚ :=
  let s := l.insertionSort (· ≤ ·)
  if s.length % 2 = 1 then s.getD (s.length / 2) 0
  else (s.getD (s.length / 2 - 1) 0 + s.getD (s.length / 2) 0) / 2

/-- Lines 259-260: `median = np.nanmedian(data, axis=0); median[median<0]=0`.
The source recomputes this inside the per-integration loop, but `data`
never changes there (`D` is a copy and only the local name is rebound),
so the image is the same for every integration and is computed once. -/
def medianImage {T ny nx : Nat} (inp : ExtractionInput T ny nx) : Mat ny nx :=
  fun y x =>
    let m := npmedian ((List.finRange T).map (fun t => inp.data t y x))
    if m < 0 then 0 else m

/-- The image handed to the profile fit: `(median-sky_bkg[i])*M`. -/
def profileInput {T ny nx : Nat} (inp : ExtractionInput T ny nx) (i : Fin T)
    (med : Mat ny nx) (M : Mask ny nx) : Mat ny nx :=
  fun y x => (med y x - inp.sky_bkg i y x) * (if M y x then 1 else 0)

/-- Lines 269-292: the profile-strategy branch.  The `median` branch calls
`profile_niriss_median(median, sigma=5)` against the signature
`profile_niriss_median(data, medprof, sigma=50)`, so it raises a
`TypeError` before producing a profile; the other failing branches
return the source's literal message strings. -/
def buildProfile {T ny nx : Nat} (inp : ExtractionInput T ny nx) (i : Fin T)
    (med : Mat ny nx) (M : Mask ny nx) : Except String (Mat ny nx) :=
  if inp.proftype = "median" then
    .error "TypeError: profile_niriss_median() missing 1 required positional argument: medprof"
  else if inp.proftype = "gaussian" then
    match inp.pos1, inp.pos2 with
    | some p1, some p2 => .ok (inp.gaussfit (profileInput inp i med M) p1 p2)
    | _, _ => .error "Please pass in `pos1` and `pos2` arguments."
  else if inp.proftype = "moffat" then
    match inp.pos1, inp.pos2 with
    | some p1, some p2 => .ok (inp.moffatfit (profileInput inp i med M) p1 p2)
    | _, _ => .error "Please pass in `pos1` and `pos2` arguments."
  else
    .error "Mask profile type not implemeted."

/-- Line 294: `P = P/np.nansum(P,axis=0)` (column-wise normalization;
`ℚ` division totalises the zero-column-sum case at 0, whose NaN
behaviour is modelled separately by `normalizeColumn` below). -/
def normalizeP {ny nx : Nat} (P : Mat ny nx) : Mat ny nx :=
  fun y x => P y x / ∑ y2, P y2 x

/-- Line 299: `V = spectrum_var[i] + np.abs(sky_bkg[i]+(P*spectrum[i]))/Q`
(row-broadcast of the 1-D arrays `spectrum_var[i]`, `spectrum[i]`),
with the free name `Q` carried as `inp.gain`. -/
def reviseV {T ny nx : Nat} (inp : ExtractionInput T ny nx) (i : Fin T)
    (P : Mat ny nx) : Fin ny → Fin nx → ℚ :=
  fun y x =>
    inp.spectrum_var i x + |inp.sky_bkg i y x + P y x * inp.spectrum i x| / inp.gain

/-- Line 302, before the square root and division by `V`:
`(np.abs(D - sky_bkg[i] - spectrum[i])*P)**2.0`. -/
def sqResid {T ny nx : Nat} (inp : ExtractionInput T ny nx) (i : Fin T)
    (P : Mat ny nx) : Fin ny → Fin nx → ℚ :=
  fun y x => (|inp.data i y x - inp.sky_bkg i y x - inp.spectrum i x| * P y x) ^ 2

/-- Line 303's per-pixel test `np.sqrt(sq/V)*M > sigma`, translated to
`ℚ` by monotonicity of the square root, including the IEEE corner
cases: `sq/0 = inf` for `sq > 0` (always above `sigma`), `0/0` and
`sq/V` for `V < 0 < sq` are NaN (never above `sigma`), `0/V = -0` for
`V < 0` gives `sqrt = 0`, and a masked pixel contributes
`0 > sigma` (or NaN when `stdevs` is non-finite). -/
def crFlagged (m : Bool) (V sq sigma : ℚ) : Bool :=
  if m then
    decide ((V = 0 ∧ 0 < sq) ∨ (0 < V ∧ (sigma < 0 ∨ sigma ^ 2 * V < sq)) ∨
      (V < 0 ∧ sq = 0 ∧ sigma < 0))
  else
    decide ((0 < V ∨ (V < 0 ∧ sq = 0)) ∧ sigma < 0)

/-- The pixels `y1,x1 = np.where((stdevs*M)>sigma)` of one pass. -/
def flagMap {T ny nx : Nat} (inp : ExtractionInput T ny nx) (i : Fin T)
    (P : Mat ny nx) (M : Mask ny nx) : Fin ny → Fin nx → Bool :=
  fun y x => crFlagged (M y x) (reviseV inp i P y x) (sqResid inp i P y x) inp.sigma

/-- Line 316: `len(y1)>0 or len(x1)>0`. -/
def anyFlagged {T ny nx : Nat} (inp : ExtractionInput T ny nx) (i : Fin T)
    (P : Mat ny nx) (M : Mask ny nx) : Bool :=
  decide (∃ y x, flagMap inp i P M y x = true)

/-- Line 317: `M[y1,x1] = 0.0`. -/
def maskStep {T ny nx : Nat} (inp : ExtractionInput T ny nx) (i : Fin T)
    (P : Mat ny nx) (M : Mask ny nx) : Mask ny nx :=
  fun y x => if flagMap inp i P M y x then false else M y x

/-- Lines 323-324: `D = D*~cr_mask[i]` when a static mask is supplied. -/
def maskedD {T ny nx : Nat} (inp : ExtractionInput T ny nx) (i : Fin T) :
    Fin ny → Fin nx → ℚ :=
  fun y x =>
    match inp.cr_mask with
    | none => inp.data i y x
    | some cm => if cm i y x then 0 else inp.data i y x

/-- Line 327: `denom = np.nansum(M * P**2.0 / V, axis=0)`. -/
def denomAt {T ny nx : Nat} (inp : ExtractionInput T ny nx) (i : Fin T)
    (P : Mat ny nx) (M : Mask ny nx) (x : Fin nx) : ℚ :=
  ∑ y, (if M y x then P y x ^ 2 / reviseV inp i P y x else 0)

/-- Line 328: `f = np.nansum(M*P*(D-sky_bkg[i])/V,axis=0) / denom`. -/
def fluxAt {T ny nx : Nat} (inp : ExtractionInput T ny nx) (i : Fin T)
    (P : Mat ny nx) (M : Mask ny nx) (x : Fin nx) : ℚ :=
  (∑ y, (if M y x then P y x * (maskedD inp i y x - inp.sky_bkg i y x) /
      reviseV inp i P y x else 0)) / denomAt inp i P M x

/-- Line 329: `var_f = np.nansum(M*P,axis=0) / denom`. -/
def varAt {T ny nx : Nat} (inp : ExtractionInput T ny nx) (i : Fin T)
    (P : Mat ny nx) (M : Mask ny nx) (x : Fin nx) : ℚ :=
  (∑ y, (if M y x then P y x else 0)) / denomAt inp i P M x

/-- Row `extracted_spectra[i]` as a length-`nx` array. -/
def fluxList {T ny nx : Nat} (inp : ExtractionInput T ny nx) (i : Fin T)
    (P : Mat ny nx) (M : Mask ny nx) : List ℚ :=
  (List.finRange nx).map (fluxAt inp i P M)

/-- Row `extracted_error[i]` as a length-`nx` array. -/
def varList {T ny nx : Nat} (inp : ExtractionInput T ny nx) (i : Fin T)
    (P : Mat ny nx) (M : Mask ny nx) : List ℚ :=
  (List.finRange nx).map (varAt inp i P M)

/-- Outcome of one integration's `while isnewprofile` loop.  `diverge`
marks fuel exhaustion (the source loop is unbounded); `err` is an early
`return` of a message string; `done` carries the extracted row, its
variance row, the converged mask and the final normalized profile. -/
inductive LoopOut (ny nx : Nat) where
  | diverge : LoopOut ny nx
  | err : String → LoopOut ny nx
  | done : List ℚ → List ℚ → Mask ny nx → Mat ny nx → LoopOut ny nx

/-- Lines 265-337: the per-integration convergence loop. -/
def extractLoop {T ny nx : Nat} (inp : ExtractionInput T ny nx) (i : Fin T)
    (med : Mat ny nx) : Nat → Mask ny nx → LoopOut ny nx
  | 0, _ => .diverge
  | Nat.succ fuel, M =>
    match buildProfile inp i med M with
    | .error e => .err e
    | .ok P0 =>
      let P := normalizeP P0
      if anyFlagged inp i P M then
        extractLoop inp i med fuel (maskStep inp i P M)
      else
        .done (fluxList inp i P M) (varList inp i P M) M P

/-- Line 263: `M = np.ones(D.shape)`. -/
def allGoodMask (ny nx : Nat) : Mask ny nx := fun _ _ => true

/-- Lines 253-341: the loop over integrations, collecting the rows of
`extracted_spectra` and `extracted_error` in time order.  An early
string `return` aborts the whole call; a diverging integration makes
the whole call diverge (`.ok none`). -/
def extractAll {T ny nx : Nat} (inp : ExtractionInput T ny nx) (fuel : Nat) :
    List (Fin T) → Except String (Option (List (List ℚ × List ℚ)))
  | [] => .ok (some [])
  | i :: rest =>
    match extractLoop inp i (medianImage inp) fuel (allGoodMask ny nx) with
    | .err e => .error e
    | .diverge => .ok none
    | .done f v _ _ =>
      match extractAll inp fuel rest with
      | .error e => .error e
      | .ok none => .ok none
      | .ok (some rs) => .ok (some ((f, v) :: rs))

/-- `optimal_extraction` (lines 175-342, after the quadrant slice):
`.ok (some rows)` is the pair of `(T, X)` arrays row-interleaved as
`(spectrum row, error row)`; `.error` is an early string return;
`.ok none` marks a non-terminating convergence loop. -/
def optimal_extraction {T ny nx : Nat} (fuel : Nat)
    (inp : ExtractionInput T ny nx) :
    Except String (Option (List (List ℚ × List ℚ))) :=
  extractAll inp fuel (List.finRange T)

/-- Number of good pixels of a mask. -/
def goodCount {ny nx : Nat} (M : Mask ny nx) : Nat :=
  (Finset.univ.filter (fun p : Fin ny × Fin nx => M p.1 p.2 = true)).card

/-- The top-level names bound in the module
`eureka.S3_data_reduction.niriss_extraction`: its imports (lines 6-14)
and its four function definitions plus `__all__` (lines 16-175).
`Q`, used at line 299, is not among them. -/
def niriss_extraction_module_bindings : List String :=
  ["np", "tqdm", "so", "savgol_filter", "interp1d", "pyximport",
   "niriss_cython", "__all__", "profile_niriss_median",
   "profile_niriss_gaussian", "profile_niriss_moffat",
   "optimal_extraction"]

/-- `np.nansum` over one profile column whose cells are `none` when
non-finite (NaN/inf): non-finite cells are skipped. -/
def nansum (col : List (Option ℚ)) : ℚ :=
  (col.map (fun v => v.getD 0)).sum

/-- Line 294 on one column, tracking non-finiteness: dividing a finite
cell by a zero column sum yields a non-finite cell (`x/0` is `±inf` for
`x ≠ 0` and NaN for `x = 0`), and a non-finite cell stays non-finite. -/
def normalizeColumn (col : List (Option ℚ)) : List (Option ℚ) :=
  let s := nansum col
  col.map (fun v =>
    match v with
    | none => none
    | some x => if s = 0 then none else some (x / s))

/-- A tiny concrete extraction input (one integration, one pixel):
zero image and sky, unit box variance, gain 1, `gaussian` strategy with
trace positions supplied, and a constant fitted profile. -/
def inpW : ExtractionInput 1 1 1 :=
  ⟨fun _ _ _ => 0, fun _ _ => 0, fun _ _ => 1, fun _ _ _ => 0,
   some [], some [], 20, none, "gaussian", 1,
   fun _ _ _ => fun _ _ => 1, fun _ _ _ => fun _ _ => 1⟩

/-- `inpW` with an unrecognized profile-strategy name. -/
def inpBadProf : ExtractionInput 1 1 1 :=
  ⟨fun _ _ _ => 0, fun _ _ => 0, fun _ _ => 1, fun _ _ _ => 0,
   some [], some [], 20, none, "box", 1,
   fun _ _ _ => fun _ _ => 1, fun _ _ _ => fun _ _ => 1⟩

/-- `inpW` with the `gaussian` strategy but `pos1 = None`. -/
def inpNoPos : ExtractionInput 1 1 1 :=
  ⟨fun _ _ _ => 0, fun _ _ => 0, fun _ _ => 1, fun _ _ _ => 0,
   none, some [], 20, none, "gaussian", 1,
   fun _ _ _ => fun _ _ => 1, fun _ _ _ => fun _ _ => 1⟩

/-- A profile column holding one finite, unmasked pixel of value `0`:
its column sum is `0`, so line 294 divides by zero. -/
def zeroCol : List (Option ℚ) := [some 0]

/-- A profile column with nonzero column sum. -/
def posCol : List (Option ℚ) := [some 1, some 3]

end NirissExtraction

namespace LightcurveModels

/-- One model component (`PyMC3Model` subclass instance): its category
tag `modeltype`, the names of its own parameters, its `time` attribute
(`None` until set), and its evaluation `evalf time channel`, a pure
function once parameter values are bound (components are stateless
between evaluations).  The flattened flux has length
`len(time) * nchan`. -/
structure MComponent where
  modeltype : String
  paramnames : List String
  time : Option (List ℚ)
  evalf : List ℚ → Option Nat → List ℚ

/-- `CompositePyMC3Model`: its own `time` attribute, channel count and
ordered component list. -/
structure Composite where
  time : Option (List ℚ)
  nchan : Nat
  components : List MComponent

/-- The base `PyMC3Model.time` setter on a component (wrapping in
`np.ma.masked_array` preserves the values). -/
def setMTime (t : List ℚ) (c : MComponent) : MComponent :=
  ⟨c.modeltype, c.paramnames, some t, c.evalf⟩

/-- `CompositePyMC3Model.time` setter (lines 588-600): sets the
composite's `_time` and propagates the array to every component. -/
def setCTime (m : Composite) (t : List ℚ) : Composite :=
  ⟨some t, m.nchan, m.components.map (setMTime t)⟩

/-- Elementwise product `flux *= component.eval(...)` of two 1-D arrays
(equal lengths in every numpy-legal call). -/
def zipMul (a b : List ℚ) : List ℚ := List.zipWith (· * ·) a b

/-- One component's contribution inside `CompositePyMC3Model.eval`
(lines 452-456): a component whose `time` is `None` is first handed the
composite's time, otherwise it evaluates on its own `time` attribute. -/
def componentFlux (selfTime : List ℚ) (ch : Option Nat) (c : MComponent) :
    List ℚ :=
  c.evalf (c.time.getD selfTime) ch

/-- `CompositePyMC3Model.eval` (lines 427-458) once `self.time` holds
`t`: start from `np.ones(len(self.time)*self.nchan)` and multiply in
every component whose `modeltype` is not `'GP'`. -/
def compositeEvalAt (m : Composite) (t : List ℚ) (ch : Option Nat) : List ℚ :=
  m.components.foldl
    (fun flux c =>
      if c.modeltype = "GP" then flux else zipMul flux (componentFlux t ch c))
    (List.replicate (t.length * m.nchan) 1)

/-- The spec's formulation of the same contract: the elementwise product
of every non-noise component's `eval(time, channel)`, over a
length-`n` array of ones. -/
def nonGPProduct (comps : List MComponent) (t : List ℚ) (ch : Option Nat)
    (n : Nat) : List ℚ :=
  (comps.filter (fun c => c.modeltype ≠ "GP")).foldl
    (fun flux c => zipMul flux (c.evalf t ch))
    (List.replicate n 1)

/-- `PyMC3Model.__mul__` (lines 67-91): `A * B` builds a
`CompositePyMC3Model([copy.copy(A), B], ...)`; the shallow copy keeps
`A`'s fields, the constructor receives no `time` and no `nchan` kwarg,
so the composite starts with `time = None` and the default
`nchan = 1`. -/
def mulModel (a b : MComponent) : Composite :=
  ⟨none, 1, [a, b]⟩

/-- `CompositePyMC3Model.eval` including the time plumbing of lines
445-447 with a `time` kwarg: an already-set `self.time` wins over the
kwarg; with neither, the `time` setter rejects `None`.  The returned
state records the `component.time = self.time` patching of line
453-454. -/
def compositeEvalRun (m : Composite) (targ : Option (List ℚ))
    (ch : Option Nat) : Except String (List ℚ × Composite) :=
  match m.time with
  | some t =>
    .ok (compositeEvalAt m t ch,
      ⟨some t, m.nchan,
        m.components.map (fun c => if c.time = none then setMTime t c else c)⟩)
  | none =>
    match targ with
    | some t => .ok (compositeEvalAt (setCTime m t) t ch, setCTime m t)
    | none => .error "Time axis must be a tuple, list, or numpy array."

/-- `PyMC3Model.interp` (lines 150-175) on a base component: save the
old time, evaluate on `new_time`, then restore through the `time`
setter — which raises `TypeError` if the saved time was `None`. -/
def interpBase (c : MComponent) (newTime : List ℚ) (ch : Option Nat) :
    Except String (List ℚ × MComponent) :=
  let old := c.time
  let c1 := setMTime newTime c
  let flux := c1.evalf newTime ch
  match old with
  | none => .error "Time axis must be a tuple, list, or numpy array."
  | some t => .ok (flux, setMTime t c1)

/-- `PyMC3Model.interp` on a composite: the `self.time` assignments go
through the composite's propagating setter. -/
def interpC (m : Composite) (newTime : List ℚ) (ch : Option Nat) :
    Except String (List ℚ × Composite) :=
  let old := m.time
  let m1 := setCTime m newTime
  match compositeEvalRun m1 none ch with
  | .error e => .error e
  | .ok (flux, m2) =>
    match old with
    | none => .error "Time axis must be a tuple, list, or numpy array."
    | some t => .ok (flux, setCTime m2 t)

/-- Modelled from the spec: the shared parameter registry of
`eureka.lib.readEPF` (`Parameters`, not under `src/`), "shared
(read-mostly) across all model components bound to one fit".  Its three
views touched by `update` are the raw dict entry
`parameters.dict[name][0]`, the `Parameter` object's `value`, and the
per-fit current-value cache `fit.<name>`; `freenames` is the
caller-supplied ordered name list. -/
structure PState where
  freenames : List String
  dictvals : String → ℚ
  paramvals : String → ℚ
  fitvals : String → ℚ

/-- The assignment loops of `PyMC3Model.update`: write each zipped
`(value, name)` pair into one view. -/
def assignAll (f : String → ℚ) (pairs : List (ℚ × String)) : String → ℚ :=
  pairs.foldl (fun g vp => Function.update g vp.2 vp.1) f

/-- `PyMC3Model.update` (lines 177-193): `zip(newparams, freenames)`
writes the dict entry and the `Parameter` value, then a second zip
writes the `fit` cache. -/
def pupdate (s : PState) (newparams : List ℚ) : PState :=
  ⟨s.freenames,
   assignAll s.dictvals (newparams.zip s.freenames),
   assignAll s.paramvals (newparams.zip s.freenames),
   assignAll s.fitvals (newparams.zip s.freenames)⟩

/-- `CompositePyMC3Model.update` (lines 569-581): each of the `ncomp`
components runs `PyMC3Model.update` against the shared registry. -/
def cupdate (ncomp : Nat) (s : PState) (newparams : List ℚ) : PState :=
  (List.range ncomp).foldl (fun st _ => pupdate st newparams) s

/-- A forward evaluation reads parameter values from the `fit` cache. -/
def evalUsesFit (s : PState) (E : (String → ℚ) → List ℚ) : List ℚ :=
  E s.fitvals

/-- `StepModel.eval` inner expression for one channel and one time
sample: `1` plus every `steps[c, s]` with `steps[c, s] != 0` and
`time >= steptimes[c, s]` (lines 105-109 of `StepModel.py`). -/
def stepEvalEntry (stepsC steptimesC : List ℚ) (t : ℚ) : ℚ :=
  1 + ∑ s ∈ Finset.range stepsC.length,
    (if stepsC.getD s 0 ≠ 0 ∧ steptimesC.getD s 0 ≤ t then stepsC.getD s 0
     else 0)

/-- `StepModel.eval` (lines 87-110): an `(nchan, len(time))` array of
ones with the step heights added, returned flattened. -/
def stepEval (nchan : Nat) (steps steptimes : List (List ℚ))
    (time : List ℚ) : List ℚ :=
  ((List.range nchan).map
    (fun c => time.map (stepEvalEntry (steps.getD c []) (steptimes.getD c [])))).flatten

/-- A parameter as seen by `CompositePyMC3Model.__init__`: its `name`,
`value`, binding kind `ptype` and prior family. -/
structure Param where
  name : String
  value : ℚ
  ptype : String
  prior : String

/-- The recognized binding kinds of lines 306-314. -/
def recognizedPtype (pt : String) : Bool :=
  pt = "independent" ∨ pt = "fixed" ∨ pt = "free" ∨ pt = "shared" ∨
    pt = "white_free" ∨ pt = "white_fixed"

/-- The `for parname in self.paramtitles` loop of
`CompositePyMC3Model.__init__` (lines 306-363), restricted to its
control flow: `independent`/`fixed` parameters are stored as plain
values, an unrecognized `ptype` raises the `ValueError` of lines
312-314 naming the parameter and its kind, and the remaining kinds
build latent variables (whose pymc3 distributions are irrelevant to the
failure behaviour). -/
def checkPtypes (registry : String → Param) : List String → Except String Unit
  | [] => .ok ()
  | n :: rest =>
    let param := registry n
    if param.ptype = "independent" ∨ param.ptype = "fixed" then
      checkPtypes registry rest
    else if ¬ (param.ptype = "free" ∨ param.ptype = "shared" ∨
        param.ptype = "white_free" ∨ param.ptype = "white_fixed") then
      .error ("ptype " ++ param.ptype ++ " for parameter " ++ param.name ++
        " is not recognized.")
    else
      checkPtypes registry rest

/-- `CompositePyMC3Model.__init__` parameter processing (lines
291-363): the `Ms`/`per`/`a` compatibility test of lines 293-304 runs
first (its real-valued planetary-mass formula is irrational, so its
outcome is carried as the boolean `mpPositive`); only then is the
`ptype` loop reached. -/
def compositeInitParamCheck (mpPositive : Bool) (registry : String → Param)
    (paramtitles : List String) : Except String Unit :=
  if mpPositive then checkPtypes registry paramtitles
  else
    .error "AssertionError: The input Ms, per, and a values are incompatible and imply a negative planetary mass."

/-- A concrete physical component: constant flux `2`, `time` unset. -/
def compA : MComponent :=
  ⟨"physical", ["p1"], none, fun t _ => t.map (fun _ => 2)⟩

/-- A concrete systematic component: constant flux `3`, `time` already
set to `[5]`. -/
def compB : MComponent :=
  ⟨"systematic", ["p2"], some [5], fun t _ => t.map (fun _ => 3)⟩

/-- A concrete single-channel composite over `compA` and `compB` with
its time axis set to `[5]`. -/
def compositeW : Composite := ⟨some [5], 1, [compA, compB]⟩

/-- A concrete component whose time is set, for exercising `interp`. -/
def compC : MComponent := ⟨"physical", [], some [1], fun t _ => t⟩

/-- A concrete composite owning `compC`, with matching time axis. -/
def compositeC : Composite := ⟨some [1], 1, [compC]⟩

/-- A concrete registry state with two free parameters. -/
def stateW : PState := ⟨["a", "b"], fun _ => 0, fun _ => 0, fun _ => 0⟩

/-- A concrete registry in which parameter `rp` has the unrecognized
binding kind `walrus` and every other parameter is `free`. -/
def walrusRegistry : String → Param :=
  fun n => if n = "rp" then ⟨"rp", 0, "walrus", "U"⟩ else ⟨n, 0, "free", "U"⟩

end LightcurveModels

open NirissExtraction LightcurveModels

/-- Claim C4: the revised per-pixel variance of every pass is
`V = box_variance[i] + |background[i] + P * box_spectrum[i]| / gain`,
used both in the outlier test and in the weighted sums — but the source
writes the gain as `Q`, a name bound nowhere in the module, so every
real execution of line 299 raises `NameError`.  The first conjunct
records the unboundness; the rest show that, with `Q` read as the
`gain` parameter, the embedded `V` is exactly the claimed formula and
is the `V` used by the outlier test (`flagMap`) and by the weighted-sum
denominator (`denomAt`) and numerator (`fluxAt`). -/
theorem C4_gain_is_unbound_Q :
    "Q" ∉ niriss_extraction_module_bindings ∧
    (∀ (T ny nx : Nat) (inp : ExtractionInput T ny nx) (i : Fin T)
        (P : Mat ny nx) (y : Fin ny) (x : Fin nx),
      reviseV inp i P y x =
        inp.spectrum_var i x +
          |inp.sky_bkg i y x + P y x * inp.spectrum i x| / inp.gain) ∧
    (∀ (T ny nx : Nat) (inp : ExtractionInput T ny nx) (i : Fin T)
        (P : Mat ny nx) (M : Mask ny nx) (y : Fin ny) (x : Fin nx),
      flagMap inp i P M y x =
        crFlagged (M y x) (reviseV inp i P y x) (sqResid inp i P y x)
          inp.sigma) ∧
    (∀ (T ny nx : Nat) (inp : ExtractionInput T ny nx) (i : Fin T)
        (P : Mat ny nx) (M : Mask ny nx) (x : Fin nx),
      denomAt inp i P M x =
        ∑ y, (if M y x then P y x ^ 2 / reviseV inp i P y x else 0)) ∧
    (∀ (T ny nx : Nat) (inp : ExtractionInput T ny nx) (i : Fin T)
        (P : Mat ny nx) (M : Mask ny nx) (x : Fin nx),
      fluxAt inp i P M x =
        (∑ y, (if M y x then
            P y x * (maskedD inp i y x - inp.sky_bkg i y x) /
              reviseV inp i P y x
          else 0)) / denomAt inp i P M x) :=
  ⟨by decide, fun _ _ _ _ _ _ _ _ => rfl, fun _ _ _ _ _ _ _ _ _ => rfl,
   fun _ _ _ _ _ _ _ _ => rfl, fun _ _ _ _ _ _ _ _ => rfl⟩

/-- Claim C6, counterexample: a profile column holding a single finite,
unmasked pixel of value `0` (so the claim's premise, at least one
unmasked finite pixel, holds with the all-good mask) has column sum
`0`; after line 294's normalization the column's `nansum` is `0`, not
`1`. -/
theorem C6_counterexample :
    (zeroCol.any (fun v => v.isSome)) = true ∧
    nansum (normalizeColumn zeroCol) ≠ 1 := by
  constructor
  · simp [zeroCol]
  · simp [zeroCol, nansum, normalizeColumn]

/-- Claim C6, amended: after the per-column normalization of line 294,
every column whose pre-normalization column sum (`np.nansum`) is
nonzero sums to exactly `1`; a zero column sum instead makes every
finite cell non-finite. -/
theorem C6_column_normalization (col : List (Option ℚ))
    (h : nansum col ≠ 0) : nansum (normalizeColumn col) = 1 := by
  have hmap : (normalizeColumn col).map (fun v => v.getD 0) =
      col.map (fun v => v.getD 0 / nansum col) := by
    unfold normalizeColumn
    rw [List.map_map]
    refine List.map_congr_left (fun v _ => ?_)
    cases v with
    | none => simp
    | some x => simp [h]
  have hdiv : ∀ (l : List ℚ) (c : ℚ),
      (l.map (fun q => q / c)).sum = l.sum / c := by
    intro l c
    induction l with
    | nil => simp
    | cons a t ih => simp [ih, add_div]
  have : nansum (normalizeColumn col) =
      (col.map (fun v => v.getD 0)).sum / nansum col := by
    rw [nansum, hmap]
    rw [show (fun v : Option ℚ => v.getD 0 / nansum col) =
        (fun q : ℚ => q / nansum col) ∘ (fun v : Option ℚ => v.getD 0) from rfl]
    rw [← List.map_map, hdiv]
  rw [this, ← nansum, div_self h]

/-- Claim C6, witness for the amended statement. -/
theorem C6_column_normalization_witness :
    nansum posCol ≠ 0 ∧ nansum (normalizeColumn posCol) = 1 :=
  ⟨by norm_num [posCol, nansum],
   C6_column_normalization posCol (by norm_num [posCol, nansum])⟩

/-- Claim C9: during `CompositePyMC3Model.__init__` (once the
`Ms`/`per`/`a` compatibility precondition holds), a parameter whose
`ptype` is outside the six recognized kinds makes construction fail
with the `ValueError` naming that parameter and its `ptype` (the first
such parameter in `paramtitles` order), before any evaluation or
sampling exists; when every parameter's kind is recognized the check
passes. -/
theorem C9_unrecognized_ptype_fails_fast (registry : String → Param) :
    (∀ titles : List String,
      (∀ n ∈ titles, recognizedPtype (registry n).ptype = true) →
      compositeInitParamCheck true registry titles = .ok ()) ∧
    (∀ (pre : List String) (n : String) (post : List String),
      (∀ m ∈ pre, recognizedPtype (registry m).ptype = true) →
      recognizedPtype (registry n).ptype = false →
      compositeInitParamCheck true registry (pre ++ n :: post) =
        .error ("ptype " ++ (registry n).ptype ++ " for parameter " ++
          (registry n).name ++ " is not recognized.")) := by
  have hstep : ∀ (m : String) (rest : List String),
      recognizedPtype (registry m).ptype = true →
      checkPtypes registry (m :: rest) = checkPtypes registry rest := by
    intro m rest hm
    simp only [recognizedPtype, decide_eq_true_eq] at hm
    rw [checkPtypes]
    by_cases h1 : (registry m).ptype = "independent" ∨
        (registry m).ptype = "fixed"
    · rw [if_pos h1]
    · rw [if_neg h1]
      push_neg at h1
      rcases hm with h | h | h | h | h | h
      · exact absurd h h1.1
      · exact absurd h h1.2
      all_goals rw [if_neg (by simp [h])]
  have hok : ∀ titles : List String,
      (∀ n ∈ titles, recognizedPtype (registry n).ptype = true) →
      checkPtypes registry titles = .ok () := by
    intro titles
    induction titles with
    | nil => intro _; rfl
    | cons n rest ih =>
      intro hall
      rw [hstep n rest (hall n (List.mem_cons_self n rest))]
      exact ih (fun m hm => hall m (List.mem_cons_of_mem n hm))
  constructor
  · intro titles hall
    show (if true = true then _ else _) = _
    rw [if_pos rfl]
    exact hok titles hall
  · intro pre n post hpre hn
    have hbad : checkPtypes registry (n :: post) =
        .error ("ptype " ++ (registry n).ptype ++ " for parameter " ++
          (registry n).name ++ " is not recognized.") := by
      simp only [recognizedPtype, decide_eq_false_iff_not] at hn
      push_neg at hn
      obtain ⟨h1, h2, h3, h4, h5, h6⟩ := hn
      rw [checkPtypes, if_neg (by simp [h1, h2]),
        if_pos (by simp [h3, h4, h5, h6])]
    have hwalk : ∀ (l : List String),
        (∀ m ∈ l, recognizedPtype (registry m).ptype = true) →
        checkPtypes registry (l ++ n :: post) =
          checkPtypes registry (n :: post) := by
      intro l
      induction l with
      | nil => intro _; rfl
      | cons m rest ih =>
        intro hall
        rw [List.cons_append, hstep m _ (hall m (List.mem_cons_self m rest))]
        exact ih (fun p hp => hall p (List.mem_cons_of_mem m hp))
    show (if true = true then _ else _) = _
    rw [if_pos rfl, hwalk pre hpre, hbad]

/-- Claim C9, witness: the registry `walrusRegistry` gives `rp` the
unrecognized kind `walrus`; construction with `paramtitles`
`["per", "rp"]` fails with the `ValueError` naming `rp` and `walrus`,
and with `["per"]` alone it succeeds. -/
theorem C9_witness :
    compositeInitParamCheck true walrusRegistry (["per"] ++ "rp" :: []) =
      .error ("ptype " ++ (walrusRegistry "rp").ptype ++ " for parameter " ++
        (walrusRegistry "rp").name ++ " is not recognized.") ∧
    compositeInitParamCheck true walrusRegistry ["per"] = .ok () :=
  ⟨(C9_unrecognized_ptype_fails_fast walrusRegistry).2 ["per"] "rp" []
      (by intro m hm; simp only [List.mem_singleton] at hm; subst hm; rfl)
      (by rfl),
   (C9_unrecognized_ptype_fails_fast walrusRegistry).1 ["per"]
      (by intro m hm; simp only [List.mem_singleton] at hm; subst hm; rfl)⟩

/-- Claim C8: a step model whose channel `c` has exactly one nonzero
step coefficient, of height `0.05 = 1/20`, with step time `t0`,
evaluates to exactly `1` before `t0` and exactly `1.05 = 21/20` from
`t0` on, in every channel of the flattened output. -/
theorem C8_single_step (nchan : Nat) (steps steptimes : List (List ℚ))
    (time : List ℚ) (t0 : ℚ)
    (hstep : ∀ c, c < nchan → ∃ s, s < (steps.getD c []).length ∧
      (steps.getD c []).getD s 0 = 1/20 ∧
      (steptimes.getD c []).getD s 0 = t0 ∧
      (∀ s2, s2 < (steps.getD c []).length → s2 ≠ s →
        (steps.getD c []).getD s2 0 = 0)) :
    stepEval nchan steps steptimes time =
      ((List.range nchan).map
        (fun _ => time.map (fun t => if t0 ≤ t then 21/20 else 1))).flatten := by
  unfold stepEval
  congr 1
  refine List.map_congr_left (fun c hc => ?_)
  obtain ⟨s, hs, hval, htime, hzero⟩ := hstep c (List.mem_range.1 hc)
  refine List.map_congr_left (fun t _ => ?_)
  unfold stepEvalEntry
  rw [Finset.sum_eq_single_of_mem s (Finset.mem_range.2 hs)]
  · rw [hval, htime]
    by_cases ht : t0 ≤ t
    · rw [if_pos ⟨by norm_num, ht⟩, if_pos ht]; norm_num
    · rw [if_neg (fun hcontra => ht hcontra.2), if_neg ht]; norm_num
  · intro b hb hbne
    rw [hzero b (Finset.mem_range.1 hb) hbne]
    simp

/-- Claim C8, witness: two channels, each with a single `1/20` step at
time `2`, evaluated on `[1, 2, 3]`. -/
theorem C8_witness :
    stepEval 2 [[1/20, 0], [0, 1/20]] [[2, 0], [0, 2]] [1, 2, 3] =
      ((List.range 2).map
        (fun _ => ([1, 2, 3] : List ℚ).map
          (fun t => if (2:ℚ) ≤ t then 21/20 else 1))).flatten ∧
    ((List.range 2).map
      (fun _ => ([1, 2, 3] : List ℚ).map
        (fun t => if (2:ℚ) ≤ t then 21/20 else 1))).flatten =
      ([1, 21/20, 21/20, 1, 21/20, 21/20] : List ℚ) := by
  constructor
  · refine C8_single_step 2 [[1/20, 0], [0, 1/20]] [[2, 0], [0, 2]]
      [1, 2, 3] 2 ?_
    intro c hc
    interval_cases c
    · refine ⟨0, by norm_num, by norm_num, by norm_num, ?_⟩
      intro s2 hs2 hne
      simp only [List.getD_cons_zero, List.length_cons, List.length_nil] at hs2 ⊢
      interval_cases s2
      · exact absurd rfl hne
      · norm_num
    · refine ⟨1, by norm_num, by norm_num, by norm_num, ?_⟩
      intro s2 hs2 hne
      simp only [List.getD_cons_zero, List.getD_cons_succ, List.length_cons,
        List.length_nil] at hs2 ⊢
      interval_cases s2
      · norm_num
      · exact absurd rfl hne
  · norm_num [List.range_succ]

/-- Claim C5: with at least one integration (and any positive fuel —
the source loop is unbounded), an unrecognized profile-strategy name,
or the `gaussian`/`moffat` strategy with a missing trace-position
argument, aborts `optimal_extraction` on the first attempt to build a
profile, with the source's diagnostic string and no spectrum/error
array pair. -/
theorem C5_config_error_is_immediate {T ny nx : Nat}
    (inp : ExtractionInput T ny nx) (fuel : Nat) (hT : 0 < T)
    (hfuel : 0 < fuel) :
    (inp.proftype ≠ "median" → inp.proftype ≠ "gaussian" →
      inp.proftype ≠ "moffat" →
      optimal_extraction fuel inp =
        .error "Mask profile type not implemeted.") ∧
    ((inp.proftype = "gaussian" ∨ inp.proftype = "moffat") →
      (inp.pos1 = none ∨ inp.pos2 = none) →
      optimal_extraction fuel inp =
        .error "Please pass in `pos1` and `pos2` arguments.") := by
  obtain ⟨f2, rfl⟩ : ∃ f2, fuel = f2 + 1 :=
    ⟨fuel - 1, (Nat.succ_pred_eq_of_pos hfuel).symm⟩
  have hne : List.finRange T ≠ [] := by
    intro h
    have hlen := List.length_finRange T
    rw [h] at hlen
    simp at hlen
    omega
  obtain ⟨i, rest, hfr⟩ := List.exists_cons_of_ne_nil hne
  have habort : ∀ e : String,
      buildProfile inp i (medianImage inp) (allGoodMask ny nx) = .error e →
      optimal_extraction (f2 + 1) inp = .error e := by
    intro e hbp
    rw [optimal_extraction, hfr]
    rw [extractAll, extractLoop, hbp]
  constructor
  · intro h1 h2 h3
    refine habort _ ?_
    rw [buildProfile, if_neg h1, if_neg h2, if_neg h3]
  · intro hstrat hpos
    refine habort _ ?_
    rcases hstrat with hg | hm
    · rw [buildProfile, if_neg (by rw [hg]; decide), if_pos hg]
      rcases hpos with h1 | h2
      · rw [h1]
      · rw [h2]
        cases inp.pos1 <;> rfl
    · rw [buildProfile, if_neg (by rw [hm]; decide),
        if_neg (by rw [hm]; decide), if_pos hm]
      rcases hpos with h1 | h2
      · rw [h1]
      · rw [h2]
        cases inp.pos1 <;> rfl

/-- Claim C5, witness: concrete one-pixel inputs with an unrecognized
strategy name (`box`) and with `gaussian` but `pos1 = None`. -/
theorem C5_witness :
    optimal_extraction 1 inpBadProf =
      .error "Mask profile type not implemeted." ∧
    optimal_extraction 1 inpNoPos =
      .error "Please pass in `pos1` and `pos2` arguments." :=
  ⟨(C5_config_error_is_immediate inpBadProf 1 (by norm_num) (by norm_num)).1
      (by decide) (by decide) (by decide),
   (C5_config_error_is_immediate inpNoPos 1 (by norm_num) (by norm_num)).2
      (Or.inl rfl) (Or.inl rfl)⟩

theorem zipMul_replicate_one (a : List ℚ) (n : Nat) (h : a.length = n) :
    zipMul (List.replicate n 1) a = a := by
  induction a generalizing n with
  | nil => subst h; rfl
  | cons x xs ih =>
    subst h
    rw [List.length_cons, List.replicate_succ]
    show (1 * x) :: zipMul (List.replicate xs.length 1) xs = x :: xs
    rw [one_mul, ih xs.length rfl]

theorem compositeFold_eq_filter_fold (t : List ℚ) (ch : Option Nat) :
    ∀ (comps : List MComponent) (acc : List ℚ),
      (∀ c ∈ comps, c.time = none ∨ c.time = some t) →
      comps.foldl (fun flux c => if c.modeltype = "GP" then flux
        else zipMul flux (componentFlux t ch c)) acc =
      (comps.filter (fun c => c.modeltype ≠ "GP")).foldl
        (fun flux c => zipMul flux (c.evalf t ch)) acc := by
  intro comps
  induction comps with
  | nil => intro acc _; rfl
  | cons c cs ih =>
    intro acc hsync
    have hcf : componentFlux t ch c = c.evalf t ch := by
      rcases hsync c (List.mem_cons_self c cs) with h | h <;>
        simp [componentFlux, h]
    rw [List.foldl_cons]
    by_cases hGP : c.modeltype = "GP"
    · rw [if_pos hGP, List.filter_cons_of_neg (by simp [hGP])]
      exact ih acc (fun d hd => hsync d (List.mem_cons_of_mem c hd))
    · rw [if_neg hGP, hcf, List.filter_cons_of_pos (by simp [hGP]),
        List.foldl_cons]
      exact ih _ (fun d hd => hsync d (List.mem_cons_of_mem c hd))

theorem filterFold_length (t : List ℚ) (ch : Option Nat) (n : Nat) :
    ∀ (comps : List MComponent) (acc : List ℚ), acc.length = n →
      (∀ c ∈ comps, c.modeltype ≠ "GP" → (c.evalf t ch).length = n) →
      ((comps.filter (fun c => c.modeltype ≠ "GP")).foldl
        (fun flux c => zipMul flux (c.evalf t ch)) acc).length = n := by
  intro comps
  induction comps with
  | nil => intro acc hacc _; exact hacc
  | cons c cs ih =>
    intro acc hacc hall
    by_cases hGP : c.modeltype = "GP"
    · rw [List.filter_cons_of_neg (by simp [hGP])]
      exact ih acc hacc (fun d hd => hall d (List.mem_cons_of_mem c hd))
    · rw [List.filter_cons_of_pos (by simp [hGP]), List.foldl_cons]
      refine ih _ ?_ (fun d hd => hall d (List.mem_cons_of_mem c hd))
      rw [zipMul, List.length_zipWith, hacc,
        hall c (List.mem_cons_self c cs) hGP, min_self]

/-- Claim C3: once the composite's time axis is `t` and its components
do not diverge from it, `eval` returns the elementwise product of every
non-noise (`modeltype ≠ 'GP'`) component's evaluation, of length
`len(time) * nchan`; in particular `A * B` built by `__mul__` evaluates
(on a fresh time axis, through the propagating time setter) to the
elementwise product `A.eval * B.eval` for non-noise `A`, `B` with
disjoint parameter sets. -/
theorem C3_composite_eval_is_product (m : Composite) (ch : Option Nat)
    (t : List ℚ)
    (hsync : ∀ c ∈ m.components, c.time = none ∨ c.time = some t)
    (hlen : ∀ c ∈ m.components, c.modeltype ≠ "GP" →
      (c.evalf t ch).length = t.length * m.nchan) :
    compositeEvalAt m t ch =
      nonGPProduct m.components t ch (t.length * m.nchan) ∧
    (compositeEvalAt m t ch).length = t.length * m.nchan ∧
    (∀ (A B : MComponent) (t2 : List ℚ) (ch2 : Option Nat),
      A.modeltype ≠ "GP" → B.modeltype ≠ "GP" →
      (∀ p ∈ A.paramnames, p ∉ B.paramnames) →
      (A.evalf t2 ch2).length = t2.length →
      (B.evalf t2 ch2).length = t2.length →
      compositeEvalRun (mulModel A B) (some t2) ch2 =
        .ok (zipMul (A.evalf t2 ch2) (B.evalf t2 ch2),
          setCTime (mulModel A B) t2)) := by
  have hmain : compositeEvalAt m t ch =
      nonGPProduct m.components t ch (t.length * m.nchan) :=
    compositeFold_eq_filter_fold t ch m.components _ hsync
  refine ⟨hmain, ?_, ?_⟩
  · rw [hmain, nonGPProduct]
    exact filterFold_length t ch (t.length * m.nchan) m.components _
      (List.length_replicate _ _) hlen
  · intro A B t2 ch2 hA hB _hdisj hlA hlB
    have hrun : compositeEvalRun (mulModel A B) (some t2) ch2 =
        .ok (compositeEvalAt (setCTime (mulModel A B) t2) t2 ch2,
          setCTime (mulModel A B) t2) := rfl
    rw [hrun]
    have heval : compositeEvalAt (setCTime (mulModel A B) t2) t2 ch2 =
        zipMul (A.evalf t2 ch2) (B.evalf t2 ch2) := by
      unfold compositeEvalAt setCTime mulModel
      simp only [List.map_cons, List.map_nil, List.foldl_cons, List.foldl_nil,
        setMTime, componentFlux, Option.getD_some]
      rw [if_neg hA, if_neg hB, mul_one,
        zipMul_replicate_one (A.evalf t2 ch2) t2.length hlA]
    rw [heval]

/-- Claim C3, witness: the concrete composite `compositeW` and the
product model `compA * compB` evaluated on `[7]`. -/
theorem C3_witness :
    compositeEvalAt compositeW [5] none =
      nonGPProduct compositeW.components [5] none
        (([5] : List ℚ).length * compositeW.nchan) ∧
    compositeEvalRun (mulModel compA compB) (some [7]) none =
      .ok (zipMul (compA.evalf [7] none) (compB.evalf [7] none),
        setCTime (mulModel compA compB) [7]) := by
  have h := C3_composite_eval_is_product compositeW none [5]
    (by
      intro c hc
      simp only [compositeW, List.mem_cons, List.not_mem_nil, or_false] at hc
      rcases hc with rfl | rfl
      · exact Or.inl rfl
      · exact Or.inr rfl)
    (by
      intro c hc _hGP
      simp only [compositeW, List.mem_cons, List.not_mem_nil, or_false] at hc
      rcases hc with rfl | rfl <;> rfl)
  exact ⟨h.1, h.2.2 compA compB [7] none (by decide) (by decide) (by decide)
    rfl rfl⟩

theorem assignAll_not_mem (name : String) :
    ∀ (pairs : List (ℚ × String)) (g : String → ℚ),
      name ∉ pairs.map Prod.snd → assignAll g pairs name = g name := by
  intro pairs
  induction pairs with
  | nil => intro g _; rfl
  | cons vp rest ih =>
    intro g h
    rw [List.map_cons] at h
    have h1 : name ≠ vp.2 := by
      intro he
      exact h (by rw [he]; exact List.mem_cons_self _ _)
    have h2 : name ∉ rest.map Prod.snd :=
      fun hm => h (List.mem_cons_of_mem vp.2 hm)
    calc assignAll g (vp :: rest) name
        = assignAll (Function.update g vp.2 vp.1) rest name := rfl
      _ = Function.update g vp.2 vp.1 name := ih _ h2
      _ = g name := Function.update_noteq h1 vp.1 g

theorem assignAll_zip_get :
    ∀ (names : List String) (ps : List ℚ) (f : String → ℚ),
      ps.length = names.length → names.Nodup →
      ∀ k, k < names.length →
        assignAll f (ps.zip names) (names.getD k "") = ps.getD k 0 := by
  intro names
  induction names with
  | nil => intro ps f _ _ k hk; exact absurd hk (Nat.not_lt_zero k)
  | cons n ns ih =>
    intro ps f hlen hnd k hk
    obtain ⟨p, pt, rfl⟩ : ∃ p pt, ps = p :: pt := by
      cases ps with
      | nil => exact absurd hlen (by simp)
      | cons p pt => exact ⟨p, pt, rfl⟩
    match k with
    | 0 =>
      calc assignAll f ((p, n) :: pt.zip ns) n
          = assignAll (Function.update f n p) (pt.zip ns) n := rfl
        _ = Function.update f n p n := by
            refine assignAll_not_mem n _ _ ?_
            intro hmem
            obtain ⟨pr, hpr, he⟩ := List.mem_map.1 hmem
            have hns : n ∈ ns := by
              rw [← he]
              exact (List.of_mem_zip hpr).2
            exact (List.nodup_cons.1 hnd).1 hns
        _ = p := Function.update_same n p f
    | Nat.succ k2 =>
      have hlen2 : pt.length = ns.length := by simpa using hlen
      have hnd2 : ns.Nodup := (List.nodup_cons.1 hnd).2
      calc assignAll f ((p, n) :: pt.zip ns) ((n :: ns).getD (k2 + 1) "")
          = assignAll (Function.update f n p) (pt.zip ns) (ns.getD k2 "") :=
            rfl
        _ = pt.getD k2 0 :=
            ih pt _ hlen2 hnd2 k2 (by simpa using hk)
        _ = (p :: pt).getD (k2 + 1) 0 := rfl

theorem cupdate_succ_eq (n : Nat) (s : PState) (ps : List ℚ) :
    cupdate (n + 1) s ps = pupdate (cupdate n s ps) ps := by
  rw [cupdate, cupdate, List.range_succ, List.foldl_append, List.foldl_cons,
    List.foldl_nil]

theorem cupdate_freenames (s : PState) (ps : List ℚ) :
    ∀ n, (cupdate n s ps).freenames = s.freenames := by
  intro n
  induction n with
  | zero => rfl
  | succ n2 ih => rw [cupdate_succ_eq]; exact ih

/-- Claim C7: `update(newparams)` matched positionally against the
ordered (duplicate-free) `freenames` leaves all three views of every
free parameter — the raw dict entry `parameters.dict[name][0]`, the
`Parameter` object's `value`, and the evaluation-time `fit` cache —
equal to the supplied value at that position; the composite's `update`
(each component updating the shared registry, any positive number of
components) yields the same values; and a subsequent evaluation reads
exactly the updated `fit` cache. -/
theorem C7_update_binds_all_views (s : PState) (newparams : List ℚ)
    (hlen : newparams.length = s.freenames.length)
    (hnd : s.freenames.Nodup) :
    (∀ k, k < s.freenames.length →
      (pupdate s newparams).dictvals (s.freenames.getD k "") =
        newparams.getD k 0 ∧
      (pupdate s newparams).paramvals (s.freenames.getD k "") =
        newparams.getD k 0 ∧
      (pupdate s newparams).fitvals (s.freenames.getD k "") =
        newparams.getD k 0) ∧
    (∀ ncomp, 0 < ncomp → ∀ k, k < s.freenames.length →
      (cupdate ncomp s newparams).dictvals (s.freenames.getD k "") =
        newparams.getD k 0 ∧
      (cupdate ncomp s newparams).paramvals (s.freenames.getD k "") =
        newparams.getD k 0 ∧
      (cupdate ncomp s newparams).fitvals (s.freenames.getD k "") =
        newparams.getD k 0) ∧
    (∀ E : (String → ℚ) → List ℚ,
      evalUsesFit (pupdate s newparams) E =
        E (assignAll s.fitvals (newparams.zip s.freenames))) := by
  have hone : ∀ (st : PState), st.freenames = s.freenames →
      ∀ k, k < s.freenames.length →
      (pupdate st newparams).dictvals (s.freenames.getD k "") =
        newparams.getD k 0 ∧
      (pupdate st newparams).paramvals (s.freenames.getD k "") =
        newparams.getD k 0 ∧
      (pupdate st newparams).fitvals (s.freenames.getD k "") =
        newparams.getD k 0 := by
    intro st hfr k hk
    refine ⟨?_, ?_, ?_⟩ <;>
      · show assignAll _ (newparams.zip st.freenames) _ = _
        rw [hfr]
        exact assignAll_zip_get s.freenames newparams _
          (hlen.trans rfl) hnd k hk
  refine ⟨hone s rfl, ?_, fun E => rfl⟩
  intro ncomp hpos k hk
  obtain ⟨n2, rfl⟩ : ∃ n2, ncomp = n2 + 1 :=
    ⟨ncomp - 1, (Nat.succ_pred_eq_of_pos hpos).symm⟩
  rw [cupdate_succ_eq]
  exact hone (cupdate n2 s newparams) (cupdate_freenames s newparams n2) k hk

/-- Claim C7, witness: the concrete two-parameter registry `stateW`
updated with values `[3, 4]`, directly and through a two-component
composite. -/
theorem C7_witness :
    (pupdate stateW [3, 4]).dictvals (stateW.freenames.getD 0 "") =
      ([3, 4] : List ℚ).getD 0 0 ∧
    (pupdate stateW [3, 4]).fitvals (stateW.freenames.getD 1 "") =
      ([3, 4] : List ℚ).getD 1 0 ∧
    (cupdate 2 stateW [3, 4]).paramvals (stateW.freenames.getD 0 "") =
      ([3, 4] : List ℚ).getD 0 0 := by
  have h := C7_update_binds_all_views stateW [3, 4] rfl (by decide)
  exact ⟨(h.1 0 (by decide)).1, (h.1 1 (by decide)).2.2,
    (h.2.1 2 (by decide) 0 (by decide)).2.1⟩

/-- Claim C10: when `interp(new_time)` returns, the model is exactly as
before the call — the flux was computed on `new_time`, and the time
attribute (for a composite: also every owned component's, given the
spec's invariant that components do not diverge from their composite's
time axis) is restored to its pre-call value. -/
theorem C10_interp_restores_time :
    (∀ (c : MComponent) (newTime : List ℚ) (ch : Option Nat)
        (flux : List ℚ) (c2 : MComponent),
      interpBase c newTime ch = .ok (flux, c2) →
      c2 = c ∧ flux = c.evalf newTime ch) ∧
    (∀ (m : Composite) (newTime : List ℚ) (ch : Option Nat)
        (flux : List ℚ) (m2 : Composite),
      (∀ comp ∈ m.components, comp.time = m.time) →
      interpC m newTime ch = .ok (flux, m2) →
      m2 = m ∧ flux = compositeEvalAt (setCTime m newTime) newTime ch) := by
  constructor
  · intro c newTime ch flux c2 h
    unfold interpBase at h
    cases hc : c.time with
    | none => rw [hc] at h; exact absurd h (by simp)
    | some t =>
      rw [hc] at h
      simp only [Except.ok.injEq, Prod.mk.injEq] at h
      obtain ⟨hf, hc2⟩ := h
      constructor
      · rw [← hc2]
        cases c with
        | mk mt pn tm ev =>
          simp only [setMTime]
          simp only at hc
          rw [hc]
      · rw [← hf]
        rfl
  · intro m newTime ch flux m2 hsync h
    have hrun : compositeEvalRun (setCTime m newTime) none ch =
        .ok (compositeEvalAt (setCTime m newTime) newTime ch,
          ⟨some newTime, m.nchan,
            (setCTime m newTime).components.map
              (fun c => if c.time = none then setMTime newTime c else c)⟩) :=
      rfl
    have hpatch : (setCTime m newTime).components.map
        (fun c => if c.time = none then setMTime newTime c else c) =
        m.components.map (setMTime newTime) := by
      show (m.components.map (setMTime newTime)).map _ = _
      rw [List.map_map]
      refine List.map_congr_left (fun c _ => ?_)
      simp [setMTime]
    simp only [interpC] at h
    rw [hrun] at h
    cases hm : m.time with
    | none => rw [hm] at h; exact absurd h (by simp)
    | some t =>
      rw [hm] at h
      simp only [Except.ok.injEq, Prod.mk.injEq] at h
      obtain ⟨hf, hm2⟩ := h
      constructor
      · rw [← hm2, setCTime]
        simp only [hpatch, List.map_map]
        have hcomp : m.components.map (setMTime t ∘ setMTime newTime) =
            m.components := by
          have : ∀ c ∈ m.components, (setMTime t ∘ setMTime newTime) c = c := by
            intro c hc
            have hct : c.time = some t := by rw [hsync c hc, hm]
            cases c with
            | mk mt pn tm ev =>
              simp only at hct
              simp only [Function.comp_apply, setMTime]
              rw [hct]
          rw [List.map_congr_left this, List.map_id']
        rw [hcomp]
        cases m with
        | mk tm nc comps =>
          simp only at hm
          rw [hm]
      · rw [← hf]

/-- Claim C10, witness: `interp([9])` on the concrete component `compC`
and the concrete composite `compositeC` (both with time axis `[1]`)
returns successfully and leaves each model exactly as before. -/
theorem C10_witness :
    (∃ flux c2, interpBase compC [9] none = Except.ok (flux, c2) ∧
      c2 = compC ∧ flux = compC.evalf [9] none) ∧
    (∃ flux m2, interpC compositeC [9] none = Except.ok (flux, m2) ∧
      m2 = compositeC ∧
      flux = compositeEvalAt (setCTime compositeC [9]) [9] none) := by
  constructor
  · obtain ⟨flux, c2, h⟩ :
        ∃ flux c2, interpBase compC [9] none = Except.ok (flux, c2) :=
      ⟨_, _, rfl⟩
    obtain ⟨h1, h2⟩ := C10_interp_restores_time.1 compC [9] none flux c2 h
    exact ⟨flux, c2, h, h1, h2⟩
  · obtain ⟨flux, m2, h⟩ :
        ∃ flux m2, interpC compositeC [9] none = Except.ok (flux, m2) :=
      ⟨_, _, rfl⟩
    have hsync : ∀ comp ∈ compositeC.components, comp.time = compositeC.time := by
      intro comp hc
      simp only [compositeC, List.mem_cons, List.not_mem_nil, or_false] at hc
      subst hc
      rfl
    obtain ⟨h1, h2⟩ :=
      C10_interp_restores_time.2 compositeC [9] none flux m2 hsync h
    exact ⟨flux, m2, h, h1, h2⟩

theorem anyFlagged_false_iff {T ny nx : Nat} (inp : ExtractionInput T ny nx)
    (i : Fin T) (P : Mat ny nx) (M : Mask ny nx) :
    anyFlagged inp i P M = false ↔
      ∀ y x, flagMap inp i P M y x = false := by
  rw [anyFlagged, decide_eq_false_iff_not]
  constructor
  · intro h y x
    by_contra hb
    exact h ⟨y, x, by simpa using hb⟩
  · rintro h ⟨y, x, hyx⟩
    rw [h y x] at hyx
    exact absurd hyx (by simp)

theorem maskStep_good {T ny nx : Nat} (inp : ExtractionInput T ny nx)
    (i : Fin T) (P : Mat ny nx) (M : Mask ny nx) (y : Fin ny) (x : Fin nx) :
    maskStep inp i P M y x = true → M y x = true := by
  rw [maskStep]
  by_cases hf : flagMap inp i P M y x = true
  · rw [if_pos hf]
    exact fun h => absurd h (by simp)
  · rw [if_neg hf]
    exact id

theorem goodCount_mask_le {T ny nx : Nat} (inp : ExtractionInput T ny nx)
    (i : Fin T) (P : Mat ny nx) (M : Mask ny nx) :
    goodCount (maskStep inp i P M) ≤ goodCount M := by
  apply Finset.card_le_card
  intro p hp
  rw [Finset.mem_filter] at hp ⊢
  exact ⟨hp.1, maskStep_good inp i P M p.1 p.2 hp.2⟩

theorem goodCount_strict_decrease {T ny nx : Nat}
    (inp : ExtractionInput T ny nx) (i : Fin T) (P : Mat ny nx)
    (M : Mask ny nx) (hs : 0 ≤ inp.sigma)
    (hfl : anyFlagged inp i P M = true) :
    goodCount (maskStep inp i P M) < goodCount M := by
  rw [anyFlagged] at hfl
  obtain ⟨y, x, hyx⟩ := of_decide_eq_true hfl
  have hM : M y x = true := by
    cases hMc : M y x with
    | true => rfl
    | false =>
      rw [flagMap, hMc] at hyx
      rw [crFlagged] at hyx
      rw [if_neg (by simp)] at hyx
      have hcontra := of_decide_eq_true hyx
      exact absurd hcontra.2 (not_lt.mpr hs)
  have hsub : (Finset.univ.filter
      (fun p : Fin ny × Fin nx => maskStep inp i P M p.1 p.2 = true)) ⊆
      (Finset.univ.filter (fun p : Fin ny × Fin nx => M p.1 p.2 = true)) := by
    intro p hp
    rw [Finset.mem_filter] at hp ⊢
    exact ⟨hp.1, maskStep_good inp i P M p.1 p.2 hp.2⟩
  refine Finset.card_lt_card ((Finset.ssubset_iff_of_subset hsub).mpr ?_)
  refine ⟨(y, x), Finset.mem_filter.2 ⟨Finset.mem_univ _, hM⟩, ?_⟩
  rw [Finset.mem_filter]
  rintro ⟨-, hgood⟩
  rw [maskStep, if_pos hyx] at hgood
  exact absurd hgood (by simp)

theorem extractLoop_done_inv {T ny nx : Nat} (inp : ExtractionInput T ny nx)
    (i : Fin T) (med : Mat ny nx) :
    ∀ (fuel : Nat) (M0 : Mask ny nx) (f v : List ℚ) (M : Mask ny nx)
      (P : Mat ny nx),
      extractLoop inp i med fuel M0 = .done f v M P →
      f = fluxList inp i P M ∧ v = varList inp i P M ∧
      anyFlagged inp i P M = false ∧
      (∀ y x, M y x = true → M0 y x = true) := by
  intro fuel
  induction fuel with
  | zero =>
    intro M0 f v M P h
    exact absurd h (by simp [extractLoop])
  | succ g ih =>
    intro M0 f v M P h
    simp only [extractLoop] at h
    cases hbp : buildProfile inp i med M0 with
    | error e =>
      rw [hbp] at h
      exact absurd h (by simp)
    | ok P0 =>
      rw [hbp] at h
      simp only at h
      by_cases hfl : anyFlagged inp i (normalizeP P0) M0 = true
      · rw [if_pos hfl] at h
        obtain ⟨h1, h2, h3, h4⟩ := ih _ _ _ _ _ h
        exact ⟨h1, h2, h3,
          fun y x hyx => maskStep_good inp i _ M0 y x (h4 y x hyx)⟩
      · rw [if_neg hfl] at h
        injection h with h1 h2 h3 h4
        subst h3
        subst h4
        refine ⟨h1.symm, h2.symm, ?_, fun _ _ => id⟩
        cases hfin : anyFlagged inp i (normalizeP P0) M0 with
        | false => rfl
        | true => exact absurd hfin hfl

theorem extractLoop_succ_eq {T ny nx : Nat} (inp : ExtractionInput T ny nx)
    (i : Fin T) (med : Mat ny nx) (fuel : Nat) (M : Mask ny nx) :
    extractLoop inp i med (fuel + 1) M =
      match buildProfile inp i med M with
      | .error e => .err e
      | .ok P0 =>
        if anyFlagged inp i (normalizeP P0) M = true then
          extractLoop inp i med fuel (maskStep inp i (normalizeP P0) M)
        else
          .done (fluxList inp i (normalizeP P0) M)
            (varList inp i (normalizeP P0) M) M (normalizeP P0) := rfl

theorem extractLoop_fuel_succ {T ny nx : Nat} (inp : ExtractionInput T ny nx)
    (i : Fin T) (med : Mat ny nx) :
    ∀ (fuel : Nat) (M : Mask ny nx),
      extractLoop inp i med fuel M ≠ .diverge →
      extractLoop inp i med (fuel + 1) M = extractLoop inp i med fuel M := by
  intro fuel
  induction fuel with
  | zero => intro M h; exact absurd rfl h
  | succ g ih =>
    intro M h
    rw [extractLoop_succ_eq inp i med (g + 1) M,
      extractLoop_succ_eq inp i med g M]
    cases hbp : buildProfile inp i med M with
    | error e => rfl
    | ok P0 =>
      show (if anyFlagged inp i (normalizeP P0) M = true then
          extractLoop inp i med (g + 1) (maskStep inp i (normalizeP P0) M)
        else _) = (if anyFlagged inp i (normalizeP P0) M = true then
          extractLoop inp i med g (maskStep inp i (normalizeP P0) M)
        else _)
      by_cases hfl : anyFlagged inp i (normalizeP P0) M = true
      · rw [if_pos hfl, if_pos hfl]
        refine ih _ ?_
        intro hd
        apply h
        rw [extractLoop_succ_eq inp i med g M, hbp]
        show (if anyFlagged inp i (normalizeP P0) M = true then
          extractLoop inp i med g (maskStep inp i (normalizeP P0) M)
          else _) = _
        rw [if_pos hfl]
        exact hd
      · rw [if_neg hfl, if_neg hfl]

theorem extractLoop_fuel_mono {T ny nx : Nat} (inp : ExtractionInput T ny nx)
    (i : Fin T) (med : Mat ny nx) (fuel1 fuel2 : Nat) (hle : fuel1 ≤ fuel2)
    (M : Mask ny nx) (h : extractLoop inp i med fuel1 M ≠ .diverge) :
    extractLoop inp i med fuel2 M = extractLoop inp i med fuel1 M := by
  induction fuel2, hle using Nat.le_induction with
  | base => rfl
  | succ n hn ih =>
    rw [extractLoop_fuel_succ inp i med n M (by rw [ih]; exact h), ih]

theorem extractLoop_terminates {T ny nx : Nat} (inp : ExtractionInput T ny nx)
    (i : Fin T) (med : Mat ny nx) (hs : 0 ≤ inp.sigma) :
    ∀ (n : Nat) (M : Mask ny nx), goodCount M ≤ n →
      extractLoop inp i med (goodCount M + 1) M ≠ .diverge := by
  intro n
  induction n with
  | zero =>
    intro M hM hdiv
    simp only [extractLoop] at hdiv
    cases hbp : buildProfile inp i med M with
    | error e => rw [hbp] at hdiv; exact absurd hdiv (by simp)
    | ok P0 =>
      rw [hbp] at hdiv
      simp only at hdiv
      by_cases hfl : anyFlagged inp i (normalizeP P0) M = true
      · have hlt := goodCount_strict_decrease inp i (normalizeP P0) M hs hfl
        omega
      · rw [if_neg hfl] at hdiv
        exact absurd hdiv (by simp)
  | succ n2 ih =>
    intro M hM hdiv
    simp only [extractLoop] at hdiv
    cases hbp : buildProfile inp i med M with
    | error e => rw [hbp] at hdiv; exact absurd hdiv (by simp)
    | ok P0 =>
      rw [hbp] at hdiv
      simp only at hdiv
      by_cases hfl : anyFlagged inp i (normalizeP P0) M = true
      · rw [if_pos hfl] at hdiv
        have hlt := goodCount_strict_decrease inp i (normalizeP P0) M hs hfl
        have hterm := ih (maskStep inp i (normalizeP P0) M) (by omega)
        have heq := extractLoop_fuel_mono inp i med
          (goodCount (maskStep inp i (normalizeP P0) M) + 1) (goodCount M)
          (by omega) _ hterm
        rw [heq] at hdiv
        exact hterm hdiv
      · rw [if_neg hfl] at hdiv
        exact absurd hdiv (by simp)

theorem extractAll_ok_spec {T ny nx : Nat} (inp : ExtractionInput T ny nx)
    (fuel : Nat) :
    ∀ (l : List (Fin T)) (rs : List (List ℚ × List ℚ)),
      extractAll inp fuel l = .ok (some rs) →
      rs.length = l.length ∧
      ∀ k (hk : k < l.length), ∃ (M : Mask ny nx) (P : Mat ny nx),
        extractLoop inp (l.get ⟨k, hk⟩) (medianImage inp) fuel
          (allGoodMask ny nx) =
          .done (fluxList inp (l.get ⟨k, hk⟩) P M)
            (varList inp (l.get ⟨k, hk⟩) P M) M P ∧
        anyFlagged inp (l.get ⟨k, hk⟩) P M = false ∧
        rs.getD k ([], []) =
          (fluxList inp (l.get ⟨k, hk⟩) P M,
            varList inp (l.get ⟨k, hk⟩) P M) := by
  intro l
  induction l with
  | nil =>
    intro rs h
    simp only [extractAll, Except.ok.injEq, Option.some.injEq] at h
    subst h
    exact ⟨rfl, fun k hk => absurd hk (Nat.not_lt_zero k)⟩
  | cons i rest ih =>
    intro rs h
    simp only [extractAll] at h
    cases hloop : extractLoop inp i (medianImage inp) fuel
        (allGoodMask ny nx) with
    | diverge => rw [hloop] at h; exact absurd h (by simp)
    | err e => rw [hloop] at h; exact absurd h (by simp)
    | done f v M P =>
      rw [hloop] at h
      simp only at h
      cases hrest : extractAll inp fuel rest with
      | error e => rw [hrest] at h; exact absurd h (by simp)
      | ok o =>
        cases o with
        | none => rw [hrest] at h; exact absurd h (by simp)
        | some rs2 =>
          rw [hrest] at h
          simp only [Except.ok.injEq, Option.some.injEq] at h
          subst h
          obtain ⟨hlen2, hall2⟩ := ih rs2 hrest
          obtain ⟨hf, hv, hconv, -⟩ :=
            extractLoop_done_inv inp i (medianImage inp) fuel _ f v M P hloop
          subst hf
          subst hv
          constructor
          · simp [hlen2]
          · intro k hk
            cases k with
            | zero => exact ⟨M, P, hloop, hconv, rfl⟩
            | succ k2 =>
              have hk2 : k2 < rest.length := by simpa using hk
              obtain ⟨M2, P2, ha, hb, hc⟩ := hall2 k2 hk2
              exact ⟨M2, P2, ha, hb, hc⟩

/-- Claim C1: whenever `optimal_extraction` returns its array pair,
each integration's convergence loop ended in a pass that flagged no
pixel, and the stored row `i` is, column by column, the weighted sum
`Σ mask·P·(D − sky)/V / Σ mask·P²/V` with the static cosmic-ray mask
already applied to `D` (`maskedD`), and the stored error row is
`Σ mask·P / Σ mask·P²/V`, with
`V = spectrum_var + |sky + P·spectrum|/gain` written out in full. -/
theorem C1_converged_weighted_sum {T ny nx : Nat} (fuel : Nat)
    (inp : ExtractionInput T ny nx) (rows : List (List ℚ × List ℚ))
    (h : optimal_extraction fuel inp = .ok (some rows)) :
    rows.length = T ∧
    ∀ i : Fin T, ∃ (M : Mask ny nx) (P : Mat ny nx),
      extractLoop inp i (medianImage inp) fuel (allGoodMask ny nx) =
        .done (fluxList inp i P M) (varList inp i P M) M P ∧
      (∀ y x, flagMap inp i P M y x = false) ∧
      (rows.getD i.val ([], [])).1 = (List.finRange nx).map (fun x =>
        (∑ y, (if M y x then
            P y x * (maskedD inp i y x - inp.sky_bkg i y x) /
              (inp.spectrum_var i x +
                |inp.sky_bkg i y x + P y x * inp.spectrum i x| / inp.gain)
          else 0)) /
        (∑ y, (if M y x then
            P y x ^ 2 /
              (inp.spectrum_var i x +
                |inp.sky_bkg i y x + P y x * inp.spectrum i x| / inp.gain)
          else 0))) ∧
      (rows.getD i.val ([], [])).2 = (List.finRange nx).map (fun x =>
        (∑ y, (if M y x then P y x else 0)) /
        (∑ y, (if M y x then
            P y x ^ 2 /
              (inp.spectrum_var i x +
                |inp.sky_bkg i y x + P y x * inp.spectrum i x| / inp.gain)
          else 0))) := by
  obtain ⟨hlen, hall⟩ := extractAll_ok_spec inp fuel (List.finRange T) rows h
  constructor
  · rw [hlen, List.length_finRange]
  · intro i
    have hk : i.val < (List.finRange T).length := by
      rw [List.length_finRange]; exact i.isLt
    obtain ⟨M, P, ha, hb, hc⟩ := hall i.val hk
    have hget : (List.finRange T).get ⟨i.val, hk⟩ = i := by
      rw [List.get_finRange]
    rw [hget] at ha hb hc
    refine ⟨M, P, ha, (anyFlagged_false_iff inp i P M).1 hb, ?_, ?_⟩
    · rw [hc]
      rfl
    · rw [hc]
      rfl

/-- Claim C2: within one call, the cosmic-ray mask starts all-good,
one pass only flips good pixels to bad (never back), so the good-pixel
count never increases; a finished loop's mask flags no further pixel
(the loop ends exactly when a pass flags nothing) and is a tightening
of the mask it started from; and with a nonnegative sigma threshold the
loop terminates within `goodCount + 1` passes. -/
theorem C2_mask_monotone_and_convergence {T ny nx : Nat}
    (inp : ExtractionInput T ny nx) (i : Fin T) (med : Mat ny nx) :
    (∀ y x, allGoodMask ny nx y x = true) ∧
    (∀ (P : Mat ny nx) (M : Mask ny nx) y x,
      maskStep inp i P M y x = true → M y x = true) ∧
    (∀ (P : Mat ny nx) (M : Mask ny nx),
      goodCount (maskStep inp i P M) ≤ goodCount M) ∧
    (∀ (fuel : Nat) (M0 : Mask ny nx) (f v : List ℚ) (M : Mask ny nx)
        (P : Mat ny nx),
      extractLoop inp i med fuel M0 = .done f v M P →
      (∀ y x, flagMap inp i P M y x = false) ∧
      (∀ y x, M y x = true → M0 y x = true)) ∧
    (0 ≤ inp.sigma → ∀ M : Mask ny nx,
      extractLoop inp i med (goodCount M + 1) M ≠ .diverge) := by
  refine ⟨fun _ _ => rfl, maskStep_good inp i, goodCount_mask_le inp i,
    ?_, ?_⟩
  · intro fuel M0 f v M P h
    obtain ⟨-, -, hconv, hmono⟩ :=
      extractLoop_done_inv inp i med fuel M0 f v M P h
    exact ⟨(anyFlagged_false_iff inp i P M).1 hconv, hmono⟩
  · intro hs M
    exact extractLoop_terminates inp i med hs (goodCount M) M le_rfl

theorem inpW_flag_false (y x : Fin 1) :
    flagMap inpW 0 (normalizeP (fun _ _ => 1)) (allGoodMask 1 1) y x =
      false := by
  fin_cases y
  fin_cases x
  have hP : normalizeP ((fun _ _ => 1) : Mat 1 1) 0 0 = 1 := by
    rw [normalizeP, Fin.sum_univ_one]
    norm_num
  have hV : reviseV inpW 0 (normalizeP (fun _ _ => 1)) 0 0 = 1 := by
    rw [reviseV, hP]
    show (1:ℚ) + |0 + 1 * 0| / 1 = 1
    norm_num
  have hsq : sqResid inpW 0 (normalizeP (fun _ _ => 1)) 0 0 = 0 := by
    rw [sqResid, hP]
    show (|(0:ℚ) - 0 - 0| * 1) ^ 2 = 0
    norm_num
  rw [flagMap]
  show crFlagged true (reviseV inpW 0 (normalizeP (fun _ _ => 1)) 0 0)
    (sqResid inpW 0 (normalizeP (fun _ _ => 1)) 0 0) inpW.sigma = false
  rw [crFlagged, if_pos rfl, hV, hsq, decide_eq_false_iff_not]
  show ¬(((1:ℚ) = 0 ∧ (0:ℚ) < 0) ∨
    ((0:ℚ) < 1 ∧ ((20:ℚ) < 0 ∨ (20:ℚ) ^ 2 * 1 < 0)) ∨
    ((1:ℚ) < 0 ∧ (0:ℚ) = 0 ∧ (20:ℚ) < 0))
  norm_num

theorem inpW_anyFlagged_false :
    anyFlagged inpW 0 (normalizeP (fun _ _ => 1)) (allGoodMask 1 1) =
      false := by
  rw [anyFlagged, decide_eq_false_iff_not]
  rintro ⟨y, x, hyx⟩
  rw [inpW_flag_false y x] at hyx
  exact absurd hyx (by simp)

theorem inpW_loop_done :
    extractLoop inpW 0 (medianImage inpW) 1 (allGoodMask 1 1) =
      .done (fluxList inpW 0 (normalizeP (fun _ _ => 1)) (allGoodMask 1 1))
        (varList inpW 0 (normalizeP (fun _ _ => 1)) (allGoodMask 1 1))
        (allGoodMask 1 1) (normalizeP (fun _ _ => 1)) := by
  have hbp : buildProfile inpW 0 (medianImage inpW) (allGoodMask 1 1) =
      .ok (fun _ _ => 1) := rfl
  show extractLoop inpW 0 (medianImage inpW) (0 + 1) (allGoodMask 1 1) = _
  simp only [extractLoop, hbp]
  rw [if_neg (by simp [inpW_anyFlagged_false])]

theorem inpW_extract_ok :
    optimal_extraction 1 inpW = .ok (some
      [(fluxList inpW 0 (normalizeP (fun _ _ => 1)) (allGoodMask 1 1),
        varList inpW 0 (normalizeP (fun _ _ => 1)) (allGoodMask 1 1))]) := by
  rw [optimal_extraction, show List.finRange 1 = [0] from rfl]
  simp only [extractAll, inpW_loop_done]

/-- Claim C1, witness: the one-pixel input `inpW` converges on the
first pass and returns the single extracted row. -/
theorem C1_witness :
    optimal_extraction 1 inpW = .ok (some
      [(fluxList inpW 0 (normalizeP (fun _ _ => 1)) (allGoodMask 1 1),
        varList inpW 0 (normalizeP (fun _ _ => 1)) (allGoodMask 1 1))]) ∧
    ([(fluxList inpW 0 (normalizeP (fun _ _ => 1)) (allGoodMask 1 1),
        varList inpW 0 (normalizeP (fun _ _ => 1)) (allGoodMask 1 1))]
      : List (List ℚ × List ℚ)).length = 1 :=
  ⟨inpW_extract_ok, (C1_converged_weighted_sum 1 inpW _ inpW_extract_ok).1⟩

/-- Claim C2, witness: on `inpW` (sigma `20 ≥ 0`), the loop with fuel
`goodCount + 1` does not diverge, and the converged loop of
`inpW_loop_done` flags no pixel. -/
theorem C2_witness :
    (0:ℚ) ≤ inpW.sigma ∧
    extractLoop inpW 0 (medianImage inpW) (goodCount (allGoodMask 1 1) + 1)
      (allGoodMask 1 1) ≠ LoopOut.diverge ∧
    (∀ y x : Fin 1, flagMap inpW 0 (normalizeP (fun _ _ => 1))
      (allGoodMask 1 1) y x = false) := by
  have hs : (0:ℚ) ≤ inpW.sigma := by norm_num [inpW]
  refine ⟨hs, ?_, ?_⟩
  · exact (C2_mask_monotone_and_convergence inpW 0
      (medianImage inpW)).2.2.2.2 hs (allGoodMask 1 1)
  · exact ((C2_mask_monotone_and_convergence inpW 0
      (medianImage inpW)).2.2.2.1 1 (allGoodMask 1 1) _ _ _ _
      inpW_loop_done).1

end Eureka
